import Mathlib

/-!
Shallow embedding of the GENI AM v3 reference aggregate manager
(src/geni/am/am3.py): the slice/resource lifecycle, expiration sweeping,
status aggregation and the structured result envelopes.  Python datetimes
are modelled as integers (microseconds); comparisons between datetimes
coincide with integer comparisons at microsecond granularity.  External
collaborators (credential verifier, RSpec XML parser, URN parser) are
modelled as call inputs carrying their outcome, as the spec treats them
as external capabilities.
-/

/-- Resource status values, the `Resource.STATUS_*` constants.  The
`Resource` class lives in resource.py which is not among the provided
sources.  Modelled from the spec: status enum `unconfigured`,
`configuring`, `ready`, `failed`, `shutdown`, plus the `unknown` default
used by slice status aggregation. -/
inductive RStatus
  | unconfigured
  | configuring
  | ready
  | failed
  | shutdown
  | unknown
deriving DecidableEq, Repr

/-- Allocation-stage values, the `Resource.STATE_GENI_*` constants.
Modelled from the spec: `unallocated`, `allocated`, `provisioned`. -/
inductive AllocState
  | unallocated
  | allocated
  | provisioned
deriving DecidableEq, Repr

/-- A fake resource record.  The concrete class (`FakeVM` in fakevm.py,
base `Resource` in resource.py) is not among the provided sources.
Modelled from the spec: opaque unique id, a type tag, an externally
assigned client id once bound, an `available` flag, a status and an
allocation state. -/
structure Resource where
  id : Nat
  rtype : String
  external_id : String
  available : Bool
  status : RStatus
  state : AllocState
deriving DecidableEq, Repr

/-- Modelled from the spec: `Resource.reset` (resource.py, not among the
provided sources) clears the binding fields and returns the resource to
the pool: `available := true`, `status := unconfigured`,
`state := unallocated`, external id cleared.  The id and type tag are
untouched. -/
def Resource.reset (r : Resource) : Resource :=
  { r with external_id := "", available := true,
           status := RStatus.unconfigured, state := AllocState.unallocated }

/-- A slice record (`Slice.__init__`): caller-supplied URN, absolute
expiration instant, and the set of member resources.  Python keeps the
member resource objects in a dict keyed by resource id; resources live in
the catalog and are mutated in place, so membership is modelled as the
list of member resource ids resolved against the catalog. -/
structure Slice where
  urn : String
  expiration : Int
  resourceIds : List Nat
deriving DecidableEq, Repr

/-- A verified credential as seen by the core: only its expiration is
ever used (`cred.expiration` passed through `_naiveUTC`, which on
absolute instants is the identity). -/
structure Cred where
  expiration : Int
deriving DecidableEq, Repr

/-- The mutable state of `ReferenceAggregateManager`: the resource
catalog (`self._agg` resources) and the slice registry (`self._slices`).
The registry dict is modelled as a list with unique URNs. -/
structure AMState where
  resources : List Resource
  slices : List Slice
deriving DecidableEq, Repr

/-- The `code` member of a result envelope.  `errorResult` omits the
`am_code` entry when its `am_code` argument is None, so the member is
optional. -/
structure CodeDict where
  geni_code : Int
  am_type : String
  am_code : Option Int
deriving DecidableEq, Repr

/-- One entry of the `geni_slivers` list returned by Allocate. -/
structure SliverInfo where
  geni_sliver_urn : String
  geni_expires : Int
  geni_allocation_status : AllocState
deriving DecidableEq, Repr

/-- Operation-specific payloads of the `value` member. -/
inductive Value
  | str (s : String)
  | boolean (b : Bool)
  | versionInfo
  | allocateResult (manifest : String) (slivers : List SliverInfo)
  | statusResult (slice_urn : String) (slice_status : RStatus)
                 (res_statuses : List (String × RStatus))
deriving DecidableEq, Repr

/-- The uniform result envelope `{code, value, output}`. -/
structure Envelope where
  code : CodeDict
  value : Value
  output : String
deriving DecidableEq, Repr

/-- Source `successResult`: geni_code 0, am_type "gcf2", am_code 0,
empty output. -/
def successResult (v : Value) : Envelope :=
  { code := { geni_code := 0, am_type := "gcf2", am_code := some 0 },
    value := v, output := "" }

/-- Source `errorResult` with its default `am_code=None`: the code dict
carries only geni_code and am_type (no am_code member), value is the
empty string. -/
def errorResult (code : Int) (output : String) : Envelope :=
  { code := { geni_code := code, am_type := "gcf2", am_code := none },
    value := Value.str "", output := output }

/-- Source `_no_such_slice`. -/
def noSuchSlice (slice_urn : String) : Envelope :=
  errorResult 12 ("Search Failed: no slice \"" ++ slice_urn ++ "\" found")

/-- Source `AggregateManager._exception_result`: the outer adapter's
envelope for exceptions raised by the inner delegate. -/
def exception_result (e : String) : Envelope :=
  { code := { geni_code := 102, am_type := "gcf3", am_code := some 0 },
    value := Value.str "", output := e }

/-- Aggregated sliver status, source `Slice.status(resources)`:
precedence shutdown, failed, configuring; then ready when the examined
status list equals a freshly built list of `ready` of the slice's own
member count (`[Resource.STATUS_READY for res in self.resources()]`);
else unknown.  `rstat` is the status list of the passed resources and
`selfCount` the slice's own member count. -/
def Slice.status (rstat : List RStatus) (selfCount : Nat) : RStatus :=
  if RStatus.shutdown ∈ rstat then RStatus.shutdown
  else if RStatus.failed ∈ rstat then RStatus.failed
  else if RStatus.configuring ∈ rstat then RStatus.configuring
  else if rstat = List.replicate selfCount RStatus.ready then RStatus.ready
  else RStatus.unknown

/-- Member resource objects of a slice: the Python dict holds references
into the catalog, modelled by resolving the member ids against the
catalog. -/
def sliceMemberResources (st : AMState) (sl : Slice) : List Resource :=
  sl.resourceIds.filterMap (fun rid => st.resources.find? (fun r => r.id == rid))

/-- The aggregated status of a registered slice, as computed at the call
sites (`theslice.status(theslice.resources())` in Delete,
`sliver.status(self._agg.catalog(slice_urn))` in RenewSliver and
SliverStatus, where the aggregate catalog of a slice is its member
resource set). -/
def sliceAggStatus (st : AMState) (sl : Slice) : RStatus :=
  Slice.status ((sliceMemberResources st sl).map (fun r => r.status)) sl.resourceIds.length

/-- Source constant REFAM_MAXLEASE_DAYS. -/
def REFAM_MAXLEASE_DAYS : Int := 365

/-- Source constant ALLOCATE_EXPIRATION_SECONDS (10 minutes). -/
def ALLOCATE_EXPIRATION_SECONDS : Int := 10 * 60

/-- Microseconds per second: datetimes are modelled at microsecond
granularity. -/
def usecPerSec : Int := 1000000

/-- Microseconds per day. -/
def usecPerDay : Int := 86400 * usecPerSec

/-- `self.max_lease = timedelta(days=REFAM_MAXLEASE_DAYS)` in
microseconds. -/
def max_lease : Int := REFAM_MAXLEASE_DAYS * usecPerDay

/-- `timedelta(seconds=ALLOCATE_EXPIRATION_SECONDS)` in microseconds. -/
def allocateWindow : Int := ALLOCATE_EXPIRATION_SECONDS * usecPerSec

/-- `datetime.datetime.min` (year 1) as microseconds relative to the
Unix epoch. -/
def datetimeMin : Int := -62135596800000000

/-- Reset every catalog resource whose id belongs to `ids`
(`for r in s.resources(): r.reset()` acting on catalog entries in
place). -/
def resetIds (ids : List Nat) (rs : List Resource) : List Resource :=
  rs.map (fun r => if r.id ∈ ids then r.reset else r)

/-- Source `expire_slices`: collect every slice with
`expiration < now`, reset each of its member resources, and drop the
registry entries. -/
def expire_slices (now : Int) (st : AMState) : AMState :=
  let expired := st.slices.filter (fun sl => decide (sl.expiration < now))
  { resources := expired.foldl (fun rs sl => resetIds sl.resourceIds rs) st.resources,
    slices := st.slices.filter (fun sl => !decide (sl.expiration < now)) }

/-- Expiration computed by Allocate:
`utcnow() + timedelta(seconds=ALLOCATE_EXPIRATION_SECONDS)`, lowered to
each verified credential's expiration that is smaller. -/
def allocationExpiration (now : Int) (creds : List Cred) : Int :=
  creds.foldl (fun e c => if c.expiration < e then c.expiration else e)
    (now + allocateWindow)

/-- Modelled from the spec: resource URN rendering; the publicid-to-urn
helper lives in geni.util.urn_util, outside the provided sources. -/
def resource_urn (r : Resource) : String :=
  "urn:publicid:IDN+geni:gpo:gcf+" ++ r.rtype ++ "+" ++ toString r.id

/-- Source `manifest_header`. -/
def manifest_header : String :=
  "<rspec type=\"manifest\">"

/-- Source `manifest_footer`. -/
def manifest_footer : String :=
  "</rspec>"

/-- Source `manifest_slice`: one node element per bound resource with
its caller-supplied client id. -/
def manifest_slice (externalIds : List String) : String :=
  externalIds.foldl (fun acc cid => acc ++ "<node client_id=\"" ++ cid ++ "\"/>") ""

/-- Source `manifest_rspec`. -/
def manifest_rspec (externalIds : List String) : String :=
  manifest_header ++ manifest_slice externalIds ++ manifest_footer

/-- Source `advert_resource` (URN construction is spec-modelled, see
`resource_urn`). -/
def advert_resource (r : Resource) : String :=
  "<node component_name=\"" ++ toString r.id ++ "\" component_id=\""
  ++ resource_urn r ++ "\" exclusive=\"false\"><available now=\""
  ++ (if r.available then "true" else "false") ++ "\"/></node>"

/-- Source `advert_header` (XML boilerplate abbreviated). -/
def advert_header : String :=
  "<rspec type=\"advertisement\">"

/-- Source `advert_footer`. -/
def advert_footer : String :=
  "</rspec>"

/-- Modelled from the spec: the compress-plus-base64-encode transform
applied when the geni_compressed option is set (zlib and base64 live
outside this core). -/
def compressEncode (s : String) : String :=
  "b64:zlib:" ++ s

namespace ReferenceAggregateManager

/-- Source `GetVersion`: sweeps, then returns the static capability
description with geni_code 0, am_type "gcf" (`self._am_type`),
am_code 0, empty output. -/
def GetVersion (st : AMState) (now : Int) : AMState × Except String Envelope :=
  (expire_slices now st,
   Except.ok { code := { geni_code := 0, am_type := "gcf", am_code := some 0 },
               value := Value.versionInfo, output := "" })

/-- Options examined by ListResources.  `rspec_version` is `none` when
option geni_rspec_version is missing; its two components are the
optional type and version fields.  `compress_ok` is the outcome of the
external zlib/base64 transform. -/
structure LROptions where
  rspec_version : Option (Option String × Option String)
  slice_urn_present : Bool
  geni_available : Bool
  geni_compressed : Bool
  compress_ok : Bool
deriving DecidableEq, Repr

/-- Source `ListResources`: sweep, verify (empty privilege set, may
raise), option validation, advertisement serialization, optional
compression (whose failure raises a server error). -/
def ListResources (st : AMState) (now : Int)
    (verify : Except String Unit) (options : LROptions) :
    AMState × Except String Envelope :=
  let st1 := expire_slices now st
  match verify with
  | Except.error e => (st1, Except.error e)
  | Except.ok _ =>
    match options.rspec_version with
    | none =>
      (st1, Except.ok (errorResult 1
        "Bad Arguments: option geni_rspec_version was not supplied."))
    | some (rtype?, rversion?) =>
      match rtype? with
      | none =>
        (st1, Except.ok (errorResult 1
          "Bad Arguments: option geni_rspec_version does not have a type field."))
      | some rspec_type =>
        match rversion? with
        | none =>
          (st1, Except.ok (errorResult 1
            "Bad Arguments: option geni_rspec_version does not have a version field."))
        | some rspec_version =>
          if rspec_type ≠ "geni" then
            (st1, Except.ok (errorResult 4
              ("Bad Version: requested RSpec type " ++ rspec_type
               ++ " is not a valid option.")))
          else if rspec_version ≠ "3" then
            (st1, Except.ok (errorResult 4
              ("Bad Version: requested RSpec version " ++ rspec_version
               ++ " is not a valid option.")))
          else if options.slice_urn_present then
            (st1, Except.ok (errorResult 1
              "Bad Arguments: option geni_slice_urn is no longer a supported option. Use \"Describe\" instead."))
          else
            let shown := st1.resources.filter
              (fun r => !options.geni_available || r.available)
            let result := advert_header
              ++ shown.foldl (fun acc r => acc ++ advert_resource r) ""
              ++ advert_footer
            if options.geni_compressed then
              if options.compress_ok then
                (st1, Except.ok
                  { code := { geni_code := 0, am_type := "gcf", am_code := some 0 },
                    value := Value.str (compressEncode result), output := "" })
              else
                (st1, Except.error "Server error compressing resource list")
            else
              (st1, Except.ok
                { code := { geni_code := 0, am_type := "gcf", am_code := some 0 },
                  value := Value.str result, output := "" })

/-- The currently available catalog resources
(`self.resources(available=True)`), in catalog enumeration order. -/
def availList (st : AMState) : List Resource :=
  st.resources.filter (fun r => r.available)

/-- Resources bound by Allocate: the node entries are paired FIFO with
the available resources (`available.pop(0)` per node entry). -/
def allocTaken (st : AMState) (nodes : List String) : List Resource :=
  (availList st).take nodes.length

/-- The FIFO pairing of node client ids with taken resources. -/
def allocPairs (st : AMState) (nodes : List String) : List (String × Resource) :=
  nodes.zip (allocTaken st nodes)

/-- The effect of the Allocate binding loop on one catalog entry: a
taken resource gets its node's client id as external id,
`available := false`, and allocation state `allocated`; other resources
are untouched. -/
def allocUpdate (st : AMState) (nodes : List String) (r : Resource) : Resource :=
  match (allocPairs st nodes).find? (fun p => p.2.id == r.id) with
  | some p => { r with external_id := p.1, available := false,
                       state := AllocState.allocated }
  | none => r

/-- The catalog after the Allocate binding loop. -/
def allocResources (st : AMState) (nodes : List String) : List Resource :=
  st.resources.map (allocUpdate st nodes)

/-- The slice registered by a successful Allocate: the given URN, the
computed expiration, and the ids of the taken resources. -/
def allocSlice (st : AMState) (u : String) (exp : Int) (nodes : List String) : Slice :=
  { urn := u, expiration := exp,
    resourceIds := (allocTaken st nodes).map (fun r => r.id) }

/-- Source `Allocate`: sweep; verify (may raise); duplicate-slice check;
RSpec parse check; availability check; FIFO binding of the first
available resources to the node entries; expiration from the allocation
window clamped by every credential; slice registration; manifest and
sliver list.  `rspecNodes` is the outcome of the external XML parse: the
client_id attributes of the node elements in document order. -/
def Allocate (st : AMState) (now : Int) (slice_urn : String)
    (verify : Except String (List Cred))
    (rspecNodes : Except String (List String)) :
    AMState × Except String Envelope :=
  let st1 := expire_slices now st
  match verify with
  | Except.error e => (st1, Except.error e)
  | Except.ok creds =>
    if st1.slices.any (fun sl => sl.urn == slice_urn) then
      (st1, Except.ok (errorResult 17 ("Slice " ++ slice_urn ++ " already exists")))
    else
      match rspecNodes with
      | Except.error _ =>
        (st1, Except.ok (errorResult 1 "Bad Args: RSpec is unparseable"))
      | Except.ok nodes =>
        if (availList st1).length < nodes.length then
          (st1, Except.ok (errorResult 6
            "Too Big: insufficient resources to fulfill request"))
        else
          let expiration := allocationExpiration now creds
          let newslice : Slice := allocSlice st1 slice_urn expiration nodes
          let slivers := (allocPairs st1 nodes).map (fun p =>
            { geni_sliver_urn := resource_urn p.2, geni_expires := expiration,
              geni_allocation_status := AllocState.allocated })
          ({ resources := allocResources st1 nodes, slices := st1.slices ++ [newslice] },
           Except.ok { code := { geni_code := 0, am_type := "gcf", am_code := some 0 },
                       value := Value.allocateResult (manifest_rspec nodes) slivers,
                       output := "" })

/-- Source `Delete`: URN parsing (external, may raise), mixed-type
check, sliver-deletion rejection, verification (may raise), then a
full-slice delete: Unavailable when the aggregated status is shutdown,
otherwise reset every member resource and drop the registry entry.
There is no expiration sweep in this method.  `urnTypes` is the outcome
of parsing each URN's type. -/
def Delete (st : AMState) (urns : List String)
    (urnTypes : Except String (List String))
    (verify : Except String (List Cred)) :
    AMState × Except String Envelope :=
  match urnTypes with
  | Except.error e => (st, Except.error e)
  | Except.ok types =>
    if 1 < types.dedup.length then
      (st, Except.ok (errorResult 1 "Bad Arguments: URN types cannot be mixed."))
    else
      match types.head? with
      | none => (st, Except.error "IndexError: list index out of range")
      | some urn_type =>
        if urn_type == "sliver" then
          (st, Except.ok (errorResult 5
            "Server Error: teach me how to delete individual slivers."))
        else
          match urns.head? with
          | none => (st, Except.error "IndexError: list index out of range")
          | some slice_urn =>
            match verify with
            | Except.error e => (st, Except.error e)
            | Except.ok _ =>
              match st.slices.find? (fun sl => sl.urn == slice_urn) with
              | some theslice =>
                if sliceAggStatus st theslice = RStatus.shutdown then
                  (st, Except.ok (errorResult 11
                    ("Unavailable: Slice " ++ slice_urn ++ " is unavailable.")))
                else
                  ({ resources := resetIds theslice.resourceIds st.resources,
                     slices := st.slices.filter (fun sl => !(sl.urn == slice_urn)) },
                   Except.ok (successResult (Value.boolean true)))
              | none => (st, Except.ok (noSuchSlice slice_urn))

/-- Source `SliverStatus`: verification (may raise), then the
per-resource status list and the aggregated slice status.  No expiration
sweep in this method. -/
def SliverStatus (st : AMState) (slice_urn : String)
    (verify : Except String (List Cred)) :
    AMState × Except String Envelope :=
  match verify with
  | Except.error e => (st, Except.error e)
  | Except.ok _ =>
    match st.slices.find? (fun sl => sl.urn == slice_urn) with
    | some theSlice =>
      let resources := sliceMemberResources st theSlice
      (st, Except.ok
        { code := { geni_code := 0, am_type := "gcf2", am_code := some 0 },
          value := Value.statusResult slice_urn (sliceAggStatus st theSlice)
                     (resources.map (fun r => (resource_urn r, r.status))),
          output := "" })
    | none => (st, Except.ok (noSuchSlice slice_urn))

/-- The credential scan of `RenewSliver` (source lines 479-497): maxexp
starts at `datetime.min`; each iteration performs the conditional
maximum update and then unconditionally overwrites maxexp with the
current credential's expiration, exactly as the source does; the first
credential whose expiration is at or after the requested instant commits
the requested instant.  Returns the committed expiration (if any) and
the final maxexp. -/
def renewScan : List Cred → Int → Int → Option Int × Int
  | [], _, maxexp => (none, maxexp)
  | c :: rest, requested, maxexp =>
    let maxexp := if maxexp < c.expiration then c.expiration else maxexp
    let maxexp := c.expiration
    if requested ≤ c.expiration then (some requested, maxexp)
    else renewScan rest requested maxexp

/-- Source `RenewSliver`: verification (may raise), registry lookup,
shutdown check, then the credential scan; on commit the slice's
expiration becomes exactly the requested instant, otherwise OutOfRange
with the final maxexp in the message.  No expiration sweep in this
method; `requested` is the parsed, naive-UTC requested instant. -/
def RenewSliver (st : AMState) (slice_urn : String)
    (verify : Except String (List Cred)) (requested : Int) :
    AMState × Except String Envelope :=
  match verify with
  | Except.error e => (st, Except.error e)
  | Except.ok creds =>
    match st.slices.find? (fun sl => sl.urn == slice_urn) with
    | some sliver =>
      if sliceAggStatus st sliver = RStatus.shutdown then
        (st, Except.ok (errorResult 11
          ("Unavailable: Slice " ++ slice_urn ++ " is unavailable.")))
      else
        match renewScan creds requested datetimeMin with
        | (some newexp, _) =>
          ({ st with slices := st.slices.map (fun sl =>
               if sl.urn == slice_urn then { sl with expiration := newexp } else sl) },
           Except.ok (successResult (Value.boolean true)))
        | (none, maxexp) =>
          (st, Except.ok (errorResult 19
            ("Out of range: Expiration " ++ toString requested
             ++ " is out of range (past last credential expiration of "
             ++ toString maxexp ++ ").")))
    | none => (st, Except.ok (noSuchSlice slice_urn))

/-- Source `Shutdown`: verification (may raise), then set every member
resource's status to shutdown.  No expiration sweep in this method. -/
def Shutdown (st : AMState) (slice_urn : String)
    (verify : Except String (List Cred)) :
    AMState × Except String Envelope :=
  match verify with
  | Except.error e => (st, Except.error e)
  | Except.ok _ =>
    match st.slices.find? (fun sl => sl.urn == slice_urn) with
    | some theslice =>
      ({ st with resources := st.resources.map (fun r =>
           if r.id ∈ theslice.resourceIds then { r with status := RStatus.shutdown }
           else r) },
       Except.ok (successResult (Value.boolean true)))
    | none => (st, Except.ok (noSuchSlice slice_urn))

end ReferenceAggregateManager

/-- The catalog entries created at construction:
`self._agg.add_resources([FakeVM() for _ in range(3)])`.  Modelled from
the spec: ids are unique and generated at construction; fields start
available, unconfigured, unallocated. -/
def initResource (i : Nat) : Resource :=
  { id := i, rtype := "fakevm", external_id := "", available := true,
    status := RStatus.unconfigured, state := AllocState.unallocated }

/-- The initial manager state: the fixed 3-resource catalog and an empty
registry. -/
def initState : AMState :=
  { resources := [initResource 0, initResource 1, initResource 2],
    slices := [] }

/-- An Allocate or Delete call with all externally supplied outcomes
(current time, verifier outcome, parser outcomes). -/
inductive Op
  | alloc (now : Int) (slice_urn : String) (verify : Except String (List Cred))
          (rspecNodes : Except String (List String))
  | del (urns : List String) (urnTypes : Except String (List String))
        (verify : Except String (List Cred))
deriving Repr

/-- State transition of one Allocate or Delete call. -/
def step (st : AMState) : Op → AMState
  | Op.alloc now u v r => (ReferenceAggregateManager.Allocate st now u v r).1
  | Op.del urns t v => (ReferenceAggregateManager.Delete st urns t v).1

/-- Run a sequence of Allocate/Delete calls from the initial state. -/
def run (ops : List Op) : AMState :=
  ops.foldl step initState

/-- Number of registered slices whose resource set contains the given
resource id. -/
def boundCount (st : AMState) (rid : Nat) : Nat :=
  st.slices.countP (fun sl => decide (rid ∈ sl.resourceIds))

/-- A public-boundary call of the outer `AggregateManager` adapter: only
GetVersion, ListResources, Allocate and DeleteSliver are registered
there (the others are commented out in the source). -/
inductive PublicCall
  | getVersion (now : Int)
  | listResources (now : Int) (verify : Except String Unit)
                  (options : ReferenceAggregateManager.LROptions)
  | allocate (now : Int) (slice_urn : String) (verify : Except String (List Cred))
             (rspecNodes : Except String (List String))
  | deleteSliver (slice_urn : String) (urnType : Except String String)
                 (verify : Except String (List Cred))
deriving Repr

/-- The outer adapter's catch-all: a raised exception becomes the
generic failure envelope, otherwise the delegate's envelope is passed
through.  Mutations made before a raise persist. -/
def wrap : AMState × Except String Envelope → AMState × Envelope
  | (st, Except.ok env) => (st, env)
  | (st, Except.error e) => (st, exception_result e)

/-- Source `AggregateManager`: every registered public method delegates
inside a try/except that converts any exception into
`_exception_result`.  DeleteSliver maps to `Delete([slice_urn], ...)`. -/
def AggregateManager.handle (st : AMState) : PublicCall → AMState × Envelope
  | PublicCall.getVersion now =>
      wrap (ReferenceAggregateManager.GetVersion st now)
  | PublicCall.listResources now v o =>
      wrap (ReferenceAggregateManager.ListResources st now v o)
  | PublicCall.allocate now u v r =>
      wrap (ReferenceAggregateManager.Allocate st now u v r)
  | PublicCall.deleteSliver u t v =>
      wrap (ReferenceAggregateManager.Delete st [u] (t.map (fun ty => [ty])) v)

open ReferenceAggregateManager

deriving instance DecidableEq for Except

/-! ### Basic lemmas about resources and the sweep -/

theorem Resource.reset_id (r : Resource) : r.reset.id = r.id := rfl

theorem Resource.reset_reset (r : Resource) : r.reset.reset = r.reset := rfl

theorem Resource.reset_available (r : Resource) : r.reset.available = true := rfl

theorem resetIds_map_id (ids : List Nat) (rs : List Resource) :
    (resetIds ids rs).map Resource.id = rs.map Resource.id := by
  unfold resetIds
  rw [List.map_map]
  apply List.map_congr_left
  intro r _
  by_cases h : r.id ∈ ids <;> simp [h, Function.comp, Resource.reset_id]

theorem foldl_resetIds_eq (L : List Slice) (rs : List Resource) :
    L.foldl (fun acc sl => resetIds sl.resourceIds acc) rs
      = rs.map (fun r =>
          if L.any (fun sl => decide (r.id ∈ sl.resourceIds)) then r.reset else r) := by
  induction L generalizing rs with
  | nil => simp
  | cons sl L ih =>
    rw [List.foldl_cons, ih]
    unfold resetIds
    rw [List.map_map]
    apply List.map_congr_left
    intro r _
    by_cases h : r.id ∈ sl.resourceIds
    · simp only [Function.comp, List.any_cons, h, if_pos, Resource.reset_id]
      by_cases h2 : L.any (fun sl => decide (r.id ∈ sl.resourceIds)) = true <;>
        simp [h, h2, Resource.reset_reset]
    · simp only [Function.comp, List.any_cons, h, if_neg]
      simp [h]

theorem expire_slices_slices (now : Int) (st : AMState) :
    (expire_slices now st).slices
      = st.slices.filter (fun sl => !decide (sl.expiration < now)) := rfl

theorem expire_resources_eq (now : Int) (st : AMState) :
    (expire_slices now st).resources
      = st.resources.map (fun r =>
          if (st.slices.filter (fun sl => decide (sl.expiration < now))).any
               (fun sl => decide (r.id ∈ sl.resourceIds)) then r.reset else r) := by
  unfold expire_slices
  exact foldl_resetIds_eq _ _

/-! ### Counting helpers -/

theorem one_le_countP {α : Type} (p : α → Bool) {l : List α} {a : α}
    (ha : a ∈ l) (hpa : p a = true) : 1 ≤ l.countP p :=
  List.countP_pos_iff.mpr ⟨a, ha, hpa⟩

theorem two_le_countP {α : Type} (p : α → Bool) {l : List α} {a b : α}
    (ha : a ∈ l) (hb : b ∈ l) (hne : a ≠ b)
    (hpa : p a = true) (hpb : p b = true) : 2 ≤ l.countP p := by
  induction l with
  | nil => cases ha
  | cons x xs ih =>
    rcases List.mem_cons.mp ha with rfl | ha'
    · rcases List.mem_cons.mp hb with rfl | hb'
      · exact absurd rfl hne
      · rw [List.countP_cons_of_pos _ _ hpa]
        have := one_le_countP p hb' hpb
        omega
    · rcases List.mem_cons.mp hb with rfl | hb'
      · rw [List.countP_cons_of_pos _ _ hpb]
        have := one_le_countP p ha' hpa
        omega
      · have := ih ha' hb'
        rw [List.countP_cons]
        omega

theorem countP_filter_le {α : Type} (p q : α → Bool) (l : List α) :
    (l.filter q).countP p ≤ l.countP p := by
  rw [List.countP_filter]
  exact List.countP_mono_left (fun a _ h => by
    exact (Bool.and_elim_left h))

theorem countP_filter_eq_of {α : Type} (p q : α → Bool) (l : List α)
    (h : ∀ a ∈ l, p a = true → q a = true) :
    (l.filter q).countP p = l.countP p := by
  rw [List.countP_filter]
  apply List.countP_congr
  intro a ha
  constructor
  · intro hpq
    exact Bool.and_elim_left hpq
  · intro hp
    exact Bool.and_intro hp (h a ha hp)

/-! ### The binding invariant preserved by Allocate and Delete -/

/-- The organizing invariant: registry URNs are unique, no resource id
is bound into more than one registered slice, and a catalog resource is
unavailable exactly when it is bound into exactly one registered
slice. -/
structure AMInv (st : AMState) : Prop where
  urns_nodup : (st.slices.map Slice.urn).Nodup
  bound_le : ∀ rid, boundCount st rid ≤ 1
  avail_iff : ∀ r ∈ st.resources, (r.available = false ↔ boundCount st r.id = 1)

theorem inv_init : AMInv initState := by
  constructor
  · simp [initState]
  · intro rid
    simp [boundCount, initState]
  · intro r hr
    have hc : boundCount initState r.id = 0 := by simp [boundCount, initState]
    rw [hc]
    fin_cases hr <;> simp [initResource]

theorem inv_expire (now : Int) (st : AMState) (h : AMInv st) :
    AMInv (expire_slices now st) := by
  have hsub : (expire_slices now st).slices.Sublist st.slices := by
    rw [expire_slices_slices]; exact List.filter_sublist _
  constructor
  · exact h.urns_nodup.sublist (hsub.map _)
  · intro rid
    calc boundCount (expire_slices now st) rid
        ≤ boundCount st rid := by
          unfold boundCount
          rw [expire_slices_slices]
          exact countP_filter_le _ _ _
      _ ≤ 1 := h.bound_le rid
  · intro r' hr'
    rw [expire_resources_eq] at hr'
    obtain ⟨r, hr, rfl⟩ := List.mem_map.mp hr'
    by_cases hc : (st.slices.filter (fun sl => decide (sl.expiration < now))).any
        (fun sl => decide (r.id ∈ sl.resourceIds)) = true
    · -- the resource belongs to an expired slice: it is reset and its
      -- only containing slice is removed, so the new count is 0
      rw [if_pos hc]
      obtain ⟨slE, hslE, hmemE⟩ := List.any_eq_true.mp hc
      have hslE' : slE ∈ st.slices := List.mem_of_mem_filter hslE
      have hexpE : slE.expiration < now := by
        have := List.of_mem_filter hslE
        simpa using this
      have hcount0 : boundCount (expire_slices now st) r.id = 0 := by
        unfold boundCount
        rw [expire_slices_slices]
        rw [List.countP_eq_zero]
        intro slK hslK hmemK
        have hslK' : slK ∈ st.slices := List.mem_of_mem_filter hslK
        have hkeep : ¬ slK.expiration < now := by
          have := List.of_mem_filter hslK
          simpa using this
        have hne : slE ≠ slK := by
          intro hEq
          rw [hEq] at hexpE
          exact hkeep hexpE
        have h2 : 2 ≤ boundCount st r.id :=
          two_le_countP _ hslE' hslK' hne (by simpa using hmemE) (by simpa using hmemK)
        have := h.bound_le r.id
        omega
      rw [Resource.reset_id, hcount0, Resource.reset_available]
      simp
    · -- no expired slice contains the resource: untouched, count unchanged
      rw [if_neg hc]
      have hceq : boundCount (expire_slices now st) r.id = boundCount st r.id := by
        unfold boundCount
        rw [expire_slices_slices]
        apply countP_filter_eq_of
        intro sl hsl hmem
        by_cases hexp : decide (sl.expiration < now) = true
        · exfalso
          apply hc
          exact List.any_eq_true.mpr ⟨sl, List.mem_filter.mpr ⟨hsl, hexp⟩, hmem⟩
        · simpa using hexp
      rw [hceq]
      exact h.avail_iff r hr

/-! ### Allocate preservation of the binding invariant -/

theorem mem_allocTaken {st : AMState} {nodes : List String} {r : Resource}
    (h : r ∈ allocTaken st nodes) : r ∈ st.resources ∧ r.available = true := by
  have h1 : r ∈ availList st := List.mem_of_mem_take h
  refine ⟨List.mem_of_mem_filter h1, ?_⟩
  have := List.of_mem_filter h1
  simpa using this

theorem length_allocTaken {st : AMState} {nodes : List String}
    (hlen : nodes.length ≤ (availList st).length) :
    (allocTaken st nodes).length = nodes.length := by
  unfold allocTaken
  rw [List.length_take]
  omega

theorem map_snd_allocPairs {st : AMState} {nodes : List String}
    (hlen : nodes.length ≤ (availList st).length) :
    (allocPairs st nodes).map Prod.snd = allocTaken st nodes := by
  unfold allocPairs
  exact List.map_snd_zip _ _ (by rw [length_allocTaken hlen])

theorem allocPairs_find?_isSome {st : AMState} {nodes : List String}
    (hlen : nodes.length ≤ (availList st).length) (r : Resource) :
    ((allocPairs st nodes).find? (fun p => p.2.id == r.id)).isSome
      ↔ r.id ∈ (allocTaken st nodes).map (fun t => t.id) := by
  rw [List.find?_isSome]
  constructor
  · rintro ⟨p, hp, hpe⟩
    have hide : p.2.id = r.id := by simpa using hpe
    rw [← hide]
    have hmem : p.2 ∈ (allocPairs st nodes).map Prod.snd := List.mem_map_of_mem _ hp
    rw [map_snd_allocPairs hlen] at hmem
    exact List.mem_map_of_mem _ hmem
  · intro hmem
    obtain ⟨t, ht, hte⟩ := List.mem_map.mp hmem
    have ht2 : t ∈ (allocPairs st nodes).map Prod.snd := by
      rw [map_snd_allocPairs hlen]; exact ht
    obtain ⟨p, hp, hpe⟩ := List.mem_map.mp ht2
    exact ⟨p, hp, by simp [hpe, hte]⟩

theorem allocUpdate_id (st : AMState) (nodes : List String) (r : Resource) :
    (allocUpdate st nodes r).id = r.id := by
  unfold allocUpdate
  split <;> rfl

theorem allocUpdate_of_not_mem {st : AMState} {nodes : List String} {r : Resource}
    (hlen : nodes.length ≤ (availList st).length)
    (h : r.id ∉ (allocTaken st nodes).map (fun t => t.id)) :
    allocUpdate st nodes r = r := by
  have hnone : (allocPairs st nodes).find? (fun p => p.2.id == r.id) = none := by
    rw [← Option.not_isSome_iff_eq_none]
    rw [allocPairs_find?_isSome hlen]
    exact h
  unfold allocUpdate
  rw [hnone]

theorem allocUpdate_available_of_mem {st : AMState} {nodes : List String} {r : Resource}
    (hlen : nodes.length ≤ (availList st).length)
    (h : r.id ∈ (allocTaken st nodes).map (fun t => t.id)) :
    (allocUpdate st nodes r).available = false := by
  have hsome : ((allocPairs st nodes).find? (fun p => p.2.id == r.id)).isSome := by
    rw [allocPairs_find?_isSome hlen]; exact h
  obtain ⟨p, hp⟩ := Option.isSome_iff_exists.mp hsome
  unfold allocUpdate
  rw [hp]

theorem boundCount_zero_of_mem_taken {st : AMState} {nodes : List String}
    (h : AMInv st) {rid : Nat}
    (hmem : rid ∈ (allocTaken st nodes).map (fun t => t.id)) :
    boundCount st rid = 0 := by
  obtain ⟨t, ht, hte⟩ := List.mem_map.mp hmem
  obtain ⟨htc, hta⟩ := mem_allocTaken ht
  have hiff := h.avail_iff t htc
  have hne : boundCount st t.id ≠ 1 := by
    intro h1
    have := hiff.mpr h1
    rw [hta] at this
    cases this
  have := h.bound_le t.id
  rw [← hte]
  omega

theorem inv_alloc_core (st : AMState) (u : String) (exp : Int) (nodes : List String)
    (h : AMInv st)
    (hnot : st.slices.any (fun sl => sl.urn == u) = false)
    (hlen : nodes.length ≤ (availList st).length) :
    AMInv { resources := allocResources st nodes,
            slices := st.slices ++ [allocSlice st u exp nodes] } := by
  have hcount : ∀ rid : Nat,
      boundCount { resources := allocResources st nodes,
                   slices := st.slices ++ [allocSlice st u exp nodes] } rid
        = boundCount st rid
          + (if rid ∈ (allocTaken st nodes).map (fun r => r.id) then 1 else 0) := by
    intro rid
    unfold boundCount
    dsimp only
    rw [List.countP_append, List.countP_singleton]
    by_cases hm : rid ∈ (allocTaken st nodes).map (fun r => r.id) <;>
      simp [hm, allocSlice]
  have hnotmem : u ∉ st.slices.map Slice.urn := by
    intro hmem
    obtain ⟨sl, hsl, hslu⟩ := List.mem_map.mp hmem
    have := List.any_eq_false.mp hnot sl hsl
    simp [hslu] at this
  constructor
  · dsimp only
    rw [List.map_append]
    apply List.Nodup.append h.urns_nodup (by simp)
    intro a ha hb
    simp at hb
    rw [hb] at ha
    exact hnotmem ha
  · intro rid
    rw [hcount rid]
    by_cases hm : rid ∈ (allocTaken st nodes).map (fun r => r.id)
    · rw [boundCount_zero_of_mem_taken h hm]
      simp [hm]
    · have := h.bound_le rid
      simp [hm]
      omega
  · intro r' hr'
    dsimp only at hr'
    unfold allocResources at hr'
    obtain ⟨r, hr, rfl⟩ := List.mem_map.mp hr'
    rw [hcount, allocUpdate_id]
    by_cases hm : r.id ∈ (allocTaken st nodes).map (fun t => t.id)
    · rw [allocUpdate_available_of_mem hlen hm, boundCount_zero_of_mem_taken h hm]
      simp [hm]
    · rw [allocUpdate_of_not_mem hlen hm]
      have := h.avail_iff r hr
      simp only [hm, if_neg, if_false]
      simpa using this

theorem inv_alloc (st : AMState) (now : Int) (u : String)
    (v : Except String (List Cred)) (r : Except String (List String))
    (h : AMInv st) : AMInv (ReferenceAggregateManager.Allocate st now u v r).1 := by
  have h1 := inv_expire now st h
  unfold ReferenceAggregateManager.Allocate
  rcases v with e | creds
  · exact h1
  · dsimp only
    by_cases hdup : (expire_slices now st).slices.any (fun sl => sl.urn == u) = true
    · simp only [hdup, if_true]
      exact h1
    · simp only [hdup, if_false]
      rcases r with e | nodes
      · exact h1
      · dsimp only
        by_cases hlen : (availList (expire_slices now st)).length < nodes.length
        · simp only [hlen, if_true]
          exact h1
        · simp only [hlen, if_false]
          exact inv_alloc_core (expire_slices now st) u _ nodes h1
            (by simpa using hdup) (by omega)

/-! ### Delete preservation of the binding invariant -/

theorem inv_delete_core (st : AMState) (u : String) (S : Slice) (h : AMInv st)
    (hfind : st.slices.find? (fun sl => sl.urn == u) = some S) :
    AMInv { resources := resetIds S.resourceIds st.resources,
            slices := st.slices.filter (fun sl => !(sl.urn == u)) } := by
  have hS : S ∈ st.slices := List.mem_of_find?_eq_some hfind
  have hSu : S.urn = u := by
    have := List.find?_some hfind
    simpa using this
  constructor
  · exact h.urns_nodup.sublist ((List.filter_sublist _).map _)
  · intro rid
    calc boundCount { resources := resetIds S.resourceIds st.resources,
                      slices := st.slices.filter (fun sl => !(sl.urn == u)) } rid
        ≤ boundCount st rid := by
          unfold boundCount
          exact countP_filter_le _ _ _
      _ ≤ 1 := h.bound_le rid
  · intro r' hr'
    dsimp only at hr'
    unfold resetIds at hr'
    obtain ⟨r, hr, rfl⟩ := List.mem_map.mp hr'
    by_cases hm : r.id ∈ S.resourceIds
    · rw [if_pos hm]
      have hcount0 :
          boundCount { resources := resetIds S.resourceIds st.resources,
                       slices := st.slices.filter (fun sl => !(sl.urn == u)) } r.id = 0 := by
        unfold boundCount
        dsimp only
        rw [List.countP_eq_zero]
        intro slK hslK hmemK
        have hslK' : slK ∈ st.slices := List.mem_of_mem_filter hslK
        have hKu : slK.urn ≠ u := by
          have := List.of_mem_filter hslK
          simpa using this
        have hne : S ≠ slK := by
          intro hEq
          rw [← hEq] at hKu
          exact hKu hSu
        have h2 : 2 ≤ boundCount st r.id :=
          two_le_countP _ hS hslK' hne (by simpa using hm) (by simpa using hmemK)
        have := h.bound_le r.id
        omega
      rw [Resource.reset_id, hcount0, Resource.reset_available]
      simp
    · rw [if_neg hm]
      have hceq :
          boundCount { resources := resetIds S.resourceIds st.resources,
                       slices := st.slices.filter (fun sl => !(sl.urn == u)) } r.id
            = boundCount st r.id := by
        unfold boundCount
        dsimp only
        apply countP_filter_eq_of
        intro sl hsl hmem
        by_cases hslu : sl.urn = u
        · exfalso
          have heq : sl = S := by
            apply List.inj_on_of_nodup_map h.urns_nodup hsl hS
            rw [hslu, hSu]
          rw [heq] at hmem
          exact hm (by simpa using hmem)
        · simpa using hslu
      rw [hceq]
      exact h.avail_iff r hr

theorem inv_delete (st : AMState) (urns : List String)
    (t : Except String (List String)) (v : Except String (List Cred))
    (h : AMInv st) : AMInv (ReferenceAggregateManager.Delete st urns t v).1 := by
  unfold ReferenceAggregateManager.Delete
  rcases t with e | types
  · exact h
  · dsimp only
    by_cases hmix : 1 < types.dedup.length
    · simp only [hmix, if_true]
      exact h
    · simp only [hmix, if_false]
      cases htypes : types.head? with
      | none => exact h
      | some urn_type =>
        dsimp only
        by_cases hsliver : (urn_type == "sliver") = true
        · simp only [hsliver, if_true]
          exact h
        · simp only [hsliver, if_false]
          cases hurns : urns.head? with
          | none => exact h
          | some slice_urn =>
            dsimp only
            rcases v with e | creds
            · exact h
            · dsimp only
              cases hfind : st.slices.find? (fun sl => sl.urn == slice_urn) with
              | none => exact h
              | some theslice =>
                dsimp only
                by_cases hshut : sliceAggStatus st theslice = RStatus.shutdown
                · simp only [hshut, if_true]
                  exact h
                · simp only [hshut, if_false]
                  exact inv_delete_core st slice_urn theslice h hfind

/-! ### The invariant holds along every Allocate/Delete run -/

theorem inv_step (st : AMState) (op : Op) (h : AMInv st) : AMInv (step st op) := by
  cases op with
  | alloc now u v r => exact inv_alloc st now u v r h
  | del urns t v => exact inv_delete st urns t v h

theorem inv_foldl (ops : List Op) (st : AMState) (h : AMInv st) :
    AMInv (ops.foldl step st) := by
  induction ops generalizing st with
  | nil => exact h
  | cons op ops ih => exact ih _ (inv_step st op h)

theorem inv_run (ops : List Op) : AMInv (run ops) :=
  inv_foldl ops initState inv_init

/-! ### Claim theorems -/

/-- C1: for every sequence of Allocate and Delete operations starting
from the initial 3-resource catalog, no resource id is ever a member of
the resource sets of two simultaneously-registered slices (the number of
registered slices containing it never exceeds one), and a resource has
`available = false` exactly when it is bound into exactly one registered
slice's resource set. -/
theorem allocate_delete_no_double_binding (ops : List Op) :
    (∀ rid : Nat, boundCount (run ops) rid ≤ 1) ∧
    (∀ r ∈ (run ops).resources,
        (r.available = false ↔ boundCount (run ops) r.id = 1)) :=
  ⟨(inv_run ops).bound_le, (inv_run ops).avail_iff⟩

/-- A concrete two-call run used to witness C1: an Allocate binding one
resource followed by a Delete of the same slice. -/
def c1Ops : List Op :=
  [Op.alloc 0 "sliceA" (Except.ok []) (Except.ok ["n1"]),
   Op.del ["sliceA"] (Except.ok ["slice"]) (Except.ok [])]

theorem allocate_delete_no_double_binding_witness :
    boundCount (run c1Ops) 0 ≤ 1 ∧
    ((initResource 0).available = false
      ↔ boundCount (run c1Ops) (initResource 0).id = 1) :=
  ⟨(allocate_delete_no_double_binding c1Ops).1 0,
   (allocate_delete_no_double_binding c1Ops).2 (initResource 0) (by decide)⟩

/-- C4 (amended): the aggregated status over a slice's own member
statuses follows the precedence shutdown, then failed, then configuring,
then ready when every member is ready (vacuously so for an empty member
set, which therefore yields ready, not unknown), else unknown. -/
theorem slice_status_precedence_amended (rstat : List RStatus) :
    (RStatus.shutdown ∈ rstat → Slice.status rstat rstat.length = RStatus.shutdown) ∧
    (RStatus.shutdown ∉ rstat → RStatus.failed ∈ rstat →
       Slice.status rstat rstat.length = RStatus.failed) ∧
    (RStatus.shutdown ∉ rstat → RStatus.failed ∉ rstat → RStatus.configuring ∈ rstat →
       Slice.status rstat rstat.length = RStatus.configuring) ∧
    (RStatus.shutdown ∉ rstat → RStatus.failed ∉ rstat → RStatus.configuring ∉ rstat →
       (∀ s ∈ rstat, s = RStatus.ready) →
       Slice.status rstat rstat.length = RStatus.ready) ∧
    (RStatus.shutdown ∉ rstat → RStatus.failed ∉ rstat → RStatus.configuring ∉ rstat →
       (∃ s ∈ rstat, s ≠ RStatus.ready) →
       Slice.status rstat rstat.length = RStatus.unknown) := by
  unfold Slice.status
  refine ⟨?_, ?_, ?_, ?_, ?_⟩
  · intro h
    rw [if_pos h]
  · intro h1 h2
    rw [if_neg h1, if_pos h2]
  · intro h1 h2 h3
    rw [if_neg h1, if_neg h2, if_pos h3]
  · intro h1 h2 h3 h4
    rw [if_neg h1, if_neg h2, if_neg h3, if_pos (List.eq_replicate_length.mpr h4)]
  · rintro h1 h2 h3 ⟨s, hs, hsne⟩
    rw [if_neg h1, if_neg h2, if_neg h3, if_neg]
    intro heq
    exact hsne (List.eq_replicate_length.mp heq s hs)

theorem slice_status_precedence_amended_witness :
    Slice.status [RStatus.ready, RStatus.configuring] 2 = RStatus.configuring ∧
    Slice.status [] 0 = RStatus.ready :=
  ⟨(slice_status_precedence_amended [RStatus.ready, RStatus.configuring]).2.2.1
     (by decide) (by decide) (by decide),
   (slice_status_precedence_amended []).2.2.2.1
     (by decide) (by decide) (by decide) (by decide)⟩

/-- A registered slice with an empty member set. -/
def emptySlice : Slice := { urn := "E", expiration := 1000, resourceIds := [] }

/-- A state containing only the empty-member slice. -/
def emptySliceState : AMState :=
  { resources := initState.resources, slices := [emptySlice] }

/-- C4 counterexample: the claim says an empty member set yields status
unknown, but the source's list-equality check `[] == []` succeeds, so
the aggregated status of a slice with no member resources is ready. -/
theorem empty_slice_status_is_ready :
    sliceAggStatus emptySliceState emptySlice = RStatus.ready ∧
    RStatus.ready ≠ RStatus.unknown := by decide

/-- A registered slice with no members and expiration 50, used for the
renewal counterexamples. -/
def renewState : AMState :=
  { resources := initState.resources,
    slices := [{ urn := "S", expiration := 50, resourceIds := [] }] }

/-- C7: at the failing input (credentials expiring at 100 then 50, both
before the requested instant 200) the scan's final maxexp is 50, the
expiry of the last credential scanned, because the conditional maximum
update on source line 482-483 is immediately overwritten by the
unconditional assignment on line 484; the OutOfRange output therefore
reports 50 even though the latest credential expiry is 100. -/
theorem renew_outofrange_reports_last_not_max :
    ReferenceAggregateManager.renewScan [⟨100⟩, ⟨50⟩] 200 datetimeMin = (none, 50) ∧
    (ReferenceAggregateManager.RenewSliver renewState "S"
        (Except.ok [⟨100⟩, ⟨50⟩]) 200).2
      = Except.ok (errorResult 19
          "Out of range: Expiration 200 is out of range (past last credential expiration of 50).") ∧
    (50 : Int) ≠ 100 := by decide

/-- A state with a live slice A and an expired slice B (expiration 5,
before the call time 10 used in the C3 counterexample). -/
def c3State : AMState :=
  { resources := initState.resources,
    slices := [{ urn := "A", expiration := 1000, resourceIds := [] },
               { urn := "B", expiration := 5, resourceIds := [] }] }

/-- C3: Delete takes no current-time input and never invokes the
expiration sweep (the same holds for SliverStatus, RenewSliver and
Shutdown), so a Delete of slice A at time 10 leaves the expired slice B
(expiration 5 < 10) registered, while the sweep itself would have
removed B. -/
theorem delete_does_not_sweep_expired :
    ((ReferenceAggregateManager.Delete c3State ["A"] (Except.ok ["slice"])
        (Except.ok [])).1.slices = [{ urn := "B", expiration := 5, resourceIds := [] }]) ∧
    (5 : Int) < 10 ∧
    (expire_slices 10 c3State).slices = [{ urn := "A", expiration := 1000, resourceIds := [] }] := by
  decide

/-- C9 counterexample: a Delete of an unregistered slice through the
public DeleteSliver boundary returns the delegate's errorResult, whose
code member has no am_code entry, contradicting the claim that every
failure envelope carries geni_code, am_type and am_code. -/
theorem error_envelope_missing_am_code :
    (AggregateManager.handle initState
        (PublicCall.deleteSliver "urn:s" (Except.ok "slice") (Except.ok []))).2.code.am_code
      = none ∧
    (AggregateManager.handle initState
        (PublicCall.deleteSliver "urn:s" (Except.ok "slice") (Except.ok []))).2.code.geni_code
      = 12 := by decide

/-! ### Lemmas on the renewal credential scan -/

theorem renewScan_commit (creds : List Cred) (requested m : Int)
    (h : ∃ c ∈ creds, requested ≤ c.expiration) :
    (ReferenceAggregateManager.renewScan creds requested m).1 = some requested := by
  induction creds generalizing m with
  | nil =>
    obtain ⟨c, hc, _⟩ := h
    cases hc
  | cons c rest ih =>
    unfold ReferenceAggregateManager.renewScan
    by_cases hc : requested ≤ c.expiration
    · simp [hc]
    · simp only [hc, if_false]
      apply ih
      obtain ⟨c', hc', hle⟩ := h
      rcases List.mem_cons.mp hc' with rfl | h'
      · exact absurd hle hc
      · exact ⟨c', h', hle⟩

theorem renewScan_fail (creds : List Cred) (requested m : Int)
    (h : ∀ c ∈ creds, c.expiration < requested) :
    (ReferenceAggregateManager.renewScan creds requested m).1 = none := by
  induction creds generalizing m with
  | nil => rfl
  | cons c rest ih =>
    unfold ReferenceAggregateManager.renewScan
    have hc : ¬ requested ≤ c.expiration := by
      have := h c (List.mem_cons_self c rest)
      omega
    simp only [hc, if_false]
    exact ih _ (fun c' hc' => h c' (List.mem_cons_of_mem _ hc'))

theorem renewScan_some (creds : List Cred) (requested m x y : Int)
    (h : ReferenceAggregateManager.renewScan creds requested m = (some x, y)) :
    x = requested ∧ ∃ c ∈ creds, requested ≤ c.expiration := by
  induction creds generalizing m with
  | nil =>
    unfold ReferenceAggregateManager.renewScan at h
    cases h
  | cons c rest ih =>
    unfold ReferenceAggregateManager.renewScan at h
    by_cases hc : requested ≤ c.expiration
    · simp only [hc, if_true] at h
      have h1 : some requested = some x := congrArg Prod.fst h
      exact ⟨(Option.some.inj h1).symm, c, List.mem_cons_self c rest, hc⟩
    · simp only [hc, if_false] at h
      obtain ⟨hx, c', hc', hle⟩ := ih _ h
      exact ⟨hx, c', List.mem_cons_of_mem _ hc', hle⟩

/-- How RenewSliver behaves when some credential reaches the requested
instant: it commits exactly the requested instant for the slice with the
given URN and returns the success envelope. -/
theorem renewSliver_commit (st : AMState) (u : String) (creds : List Cred)
    (requested : Int) (sl : Slice)
    (hfind : st.slices.find? (fun s => s.urn == u) = some sl)
    (hshut : sliceAggStatus st sl ≠ RStatus.shutdown)
    (hex : ∃ c ∈ creds, requested ≤ c.expiration) :
    (ReferenceAggregateManager.RenewSliver st u (Except.ok creds) requested).2
      = Except.ok (successResult (Value.boolean true)) ∧
    ∀ sl2 ∈ (ReferenceAggregateManager.RenewSliver st u (Except.ok creds) requested).1.slices,
      sl2.urn = u → sl2.expiration = requested := by
  have hcommit := renewScan_commit creds requested datetimeMin hex
  rcases hscan : ReferenceAggregateManager.renewScan creds requested datetimeMin with ⟨o, mx⟩
  rw [hscan] at hcommit
  dsimp only at hcommit
  subst hcommit
  unfold ReferenceAggregateManager.RenewSliver
  rw [hfind]
  dsimp only
  rw [if_neg hshut, hscan]
  dsimp only
  refine ⟨rfl, ?_⟩
  intro sl2 hsl2 hurn
  obtain ⟨sl0, hsl0, rfl⟩ := List.mem_map.mp hsl2
  by_cases hu : (sl0.urn == u) = true
  · rw [if_pos hu]
  · rw [if_neg hu] at hurn ⊢
    exact absurd (by simpa using hurn) (by simpa using hu)

/-- How RenewSliver behaves when every credential expires strictly
before the requested instant: the state is unchanged and the result is
the OutOfRange error. -/
theorem renewSliver_out_of_range (st : AMState) (u : String) (creds : List Cred)
    (requested : Int) (sl : Slice)
    (hfind : st.slices.find? (fun s => s.urn == u) = some sl)
    (hshut : sliceAggStatus st sl ≠ RStatus.shutdown)
    (hall : ∀ c ∈ creds, c.expiration < requested) :
    (ReferenceAggregateManager.RenewSliver st u (Except.ok creds) requested).1 = st ∧
    ((ReferenceAggregateManager.RenewSliver st u (Except.ok creds) requested).2.toOption.map
       (fun env => env.code.geni_code)) = some 19 := by
  have hnone := renewScan_fail creds requested datetimeMin hall
  rcases hscan : ReferenceAggregateManager.renewScan creds requested datetimeMin with ⟨o, mx⟩
  rw [hscan] at hnone
  dsimp only at hnone
  subst hnone
  unfold ReferenceAggregateManager.RenewSliver
  rw [hfind]
  dsimp only
  rw [if_neg hshut, hscan]
  dsimp only
  exact ⟨rfl, rfl⟩

/-- C6: on a registered, non-shutdown slice, RenewSliver succeeds and
commits exactly the requested instant whenever some verified
credential's expiry is at or after it (inclusive comparison), and fails
with OutOfRange leaving the state (hence the slice's expiration)
unchanged whenever every credential's expiry is strictly before it. -/
theorem renew_boundary (st : AMState) (u : String) (creds : List Cred)
    (requested : Int) (sl : Slice)
    (hfind : st.slices.find? (fun s => s.urn == u) = some sl)
    (hshut : sliceAggStatus st sl ≠ RStatus.shutdown) :
    ((∃ c ∈ creds, requested ≤ c.expiration) →
       (ReferenceAggregateManager.RenewSliver st u (Except.ok creds) requested).2
         = Except.ok (successResult (Value.boolean true)) ∧
       ∀ sl2 ∈ (ReferenceAggregateManager.RenewSliver st u
                  (Except.ok creds) requested).1.slices,
         sl2.urn = u → sl2.expiration = requested) ∧
    ((∀ c ∈ creds, c.expiration < requested) →
       (ReferenceAggregateManager.RenewSliver st u (Except.ok creds) requested).1 = st ∧
       ((ReferenceAggregateManager.RenewSliver st u
           (Except.ok creds) requested).2.toOption.map
          (fun env => env.code.geni_code)) = some 19) :=
  ⟨fun hex => renewSliver_commit st u creds requested sl hfind hshut hex,
   fun hall => renewSliver_out_of_range st u creds requested sl hfind hshut hall⟩

theorem renew_boundary_witness :
    ((ReferenceAggregateManager.RenewSliver renewState "S"
        (Except.ok [⟨1000⟩]) 1000).2
      = Except.ok (successResult (Value.boolean true))) ∧
    ((ReferenceAggregateManager.RenewSliver renewState "S"
        (Except.ok [⟨1000⟩]) 1001).1 = renewState ∧
     ((ReferenceAggregateManager.RenewSliver renewState "S"
         (Except.ok [⟨1000⟩]) 1001).2.toOption.map
        (fun env => env.code.geni_code)) = some 19) :=
  ⟨((renew_boundary renewState "S" [⟨1000⟩] 1000 ⟨"S", 50, []⟩
       (by decide) (by decide)).1 ⟨⟨1000⟩, by decide, by decide⟩).1,
   (renew_boundary renewState "S" [⟨1000⟩] 1001 ⟨"S", 50, []⟩
       (by decide) (by decide)).2 (by decide)⟩

/-- C10: RenewSliver imposes no lower bound on the requested instant:
whenever the slice is registered, not shutdown, and some credential's
expiry reaches the requested instant, the slice's expiration is set to
exactly that instant — no hypothesis relates the requested instant to
the slice's current expiration or to the current time, so a renewal may
shorten the lease or set it into the past. -/
theorem renew_no_lower_bound (st : AMState) (u : String) (creds : List Cred)
    (requested : Int) (sl : Slice)
    (hfind : st.slices.find? (fun s => s.urn == u) = some sl)
    (hshut : sliceAggStatus st sl ≠ RStatus.shutdown)
    (hex : ∃ c ∈ creds, requested ≤ c.expiration) :
    (ReferenceAggregateManager.RenewSliver st u (Except.ok creds) requested).2
      = Except.ok (successResult (Value.boolean true)) ∧
    ∀ sl2 ∈ (ReferenceAggregateManager.RenewSliver st u
               (Except.ok creds) requested).1.slices,
      sl2.urn = u → sl2.expiration = requested :=
  renewSliver_commit st u creds requested sl hfind hshut hex

/-- A state whose slice has a far-future expiration, used to witness
that a renewal can shorten the lease. -/
def renewFutureState : AMState :=
  { resources := initState.resources,
    slices := [{ urn := "S", expiration := 1000, resourceIds := [] }] }

theorem renew_no_lower_bound_witness :
    ((ReferenceAggregateManager.RenewSliver renewFutureState "S"
        (Except.ok [⟨500⟩]) 3).2
      = Except.ok (successResult (Value.boolean true))) ∧
    (∀ sl2 ∈ (ReferenceAggregateManager.RenewSliver renewFutureState "S"
                (Except.ok [⟨500⟩]) 3).1.slices,
       sl2.urn = "S" → sl2.expiration = 3) ∧
    (3 : Int) < 1000 ∧
    (expire_slices 10 (ReferenceAggregateManager.RenewSliver renewFutureState "S"
        (Except.ok [⟨500⟩]) 3).1).slices = [] :=
  ⟨(renew_no_lower_bound renewFutureState "S" [⟨500⟩] 3 ⟨"S", 1000, []⟩
      (by decide) (by decide) ⟨⟨500⟩, by decide, by decide⟩).1,
   (renew_no_lower_bound renewFutureState "S" [⟨500⟩] 3 ⟨"S", 1000, []⟩
      (by decide) (by decide) ⟨⟨500⟩, by decide, by decide⟩).2,
   by decide, by decide⟩

/-! ### Bounds on the Allocate expiration computation -/

theorem foldl_credmin_le_init (creds : List Cred) (e : Int) :
    creds.foldl (fun e c => if c.expiration < e then c.expiration else e) e ≤ e := by
  induction creds generalizing e with
  | nil => exact le_refl e
  | cons c rest ih =>
    rw [List.foldl_cons]
    refine le_trans (ih _) ?_
    by_cases h : c.expiration < e
    · rw [if_pos h]
      omega
    · rw [if_neg h]

theorem foldl_credmin_le_mem (creds : List Cred) (e : Int) :
    ∀ c ∈ creds,
      creds.foldl (fun e c => if c.expiration < e then c.expiration else e) e
        ≤ c.expiration := by
  induction creds generalizing e with
  | nil =>
    intro c hc
    cases hc
  | cons c rest ih =>
    intro c' hc'
    rw [List.foldl_cons]
    rcases List.mem_cons.mp hc' with rfl | h'
    · refine le_trans (foldl_credmin_le_init rest _) ?_
      by_cases h : c'.expiration < e
      · rw [if_pos h]
      · rw [if_neg h]
        omega
    · exact ih _ c' h'

theorem allocationExpiration_le_window (now : Int) (creds : List Cred) :
    allocationExpiration now creds ≤ now + allocateWindow :=
  foldl_credmin_le_init creds (now + allocateWindow)

theorem allocationExpiration_le_cred (now : Int) (creds : List Cred) :
    ∀ c ∈ creds, allocationExpiration now creds ≤ c.expiration :=
  foldl_credmin_le_mem creds (now + allocateWindow)

theorem allocateWindow_le_max_lease : allocateWindow ≤ max_lease := by
  norm_num [allocateWindow, max_lease, REFAM_MAXLEASE_DAYS,
    ALLOCATE_EXPIRATION_SECONDS, usecPerSec, usecPerDay]

/-- Any slice present after an Allocate call but absent from the
post-sweep state is the newly registered one, with the computed
expiration. -/
theorem alloc_new_slice_spec (st : AMState) (now : Int) (u : String)
    (creds : List Cred) (nodes : List String) :
    ∀ sl ∈ (ReferenceAggregateManager.Allocate st now u
             (Except.ok creds) (Except.ok nodes)).1.slices,
      sl ∉ (expire_slices now st).slices →
      sl.expiration = allocationExpiration now creds := by
  intro sl hsl hnot
  unfold ReferenceAggregateManager.Allocate at hsl
  dsimp only at hsl
  by_cases hdup : (expire_slices now st).slices.any (fun s => s.urn == u) = true
  · simp only [hdup, if_true] at hsl
    exact absurd hsl hnot
  · simp only [hdup, if_false] at hsl
    by_cases hlen : (availList (expire_slices now st)).length < nodes.length
    · simp only [hlen, if_true] at hsl
      exact absurd hsl hnot
    · simp only [hlen, if_false] at hsl
      rcases List.mem_append.mp hsl with h | h
      · exact absurd h hnot
      · have : sl = allocSlice (expire_slices now st) u (allocationExpiration now creds) nodes := by
          simpa using h
        rw [this]
        rfl

/-- C2 (amended): at creation (Allocate) the stored expiration never
exceeds now plus the maximum lease bound and never exceeds any verified
credential's expiry; at renewal (RenewSliver) the stored expiration
never exceeds the greatest verified credential's expiry — but it may
exceed the minimum credential expiry and the maximum lease bound, since
the renewal scan only requires a single credential to reach the
requested instant and never consults `max_lease`. -/
theorem expiration_bounds_amended :
    (∀ (st : AMState) (now : Int) (u : String) (creds : List Cred)
       (nodes : List String),
       ∀ sl ∈ (ReferenceAggregateManager.Allocate st now u
                (Except.ok creds) (Except.ok nodes)).1.slices,
         sl ∉ (expire_slices now st).slices →
         sl.expiration ≤ now + max_lease ∧
         ∀ c ∈ creds, sl.expiration ≤ c.expiration) ∧
    (∀ (st : AMState) (u : String) (creds : List Cred) (requested : Int),
       ∀ sl ∈ (ReferenceAggregateManager.RenewSliver st u
                (Except.ok creds) requested).1.slices,
         sl ∉ st.slices → ∃ c ∈ creds, sl.expiration ≤ c.expiration) := by
  constructor
  · intro st now u creds nodes sl hsl hnot
    have hexp := alloc_new_slice_spec st now u creds nodes sl hsl hnot
    rw [hexp]
    constructor
    · have h1 := allocationExpiration_le_window now creds
      have h2 := allocateWindow_le_max_lease
      omega
    · exact allocationExpiration_le_cred now creds
  · intro st u creds requested sl hsl hnot
    unfold ReferenceAggregateManager.RenewSliver at hsl
    cases hfind : st.slices.find? (fun s => s.urn == u) with
    | none =>
      rw [hfind] at hsl
      dsimp only at hsl
      exact absurd hsl hnot
    | some sliver =>
      rw [hfind] at hsl
      dsimp only at hsl
      by_cases hshut : sliceAggStatus st sliver = RStatus.shutdown
      · rw [if_pos hshut] at hsl
        exact absurd hsl hnot
      · rw [if_neg hshut] at hsl
        rcases hscan : ReferenceAggregateManager.renewScan creds requested datetimeMin
          with ⟨o, mx⟩
        rw [hscan] at hsl
        cases o with
        | none =>
          dsimp only at hsl
          exact absurd hsl hnot
        | some newexp =>
          dsimp only at hsl
          obtain ⟨hx, c, hc, hle⟩ := renewScan_some creds requested datetimeMin newexp mx hscan
          obtain ⟨sl0, hsl0, rfl⟩ := List.mem_map.mp hsl
          by_cases hu : (sl0.urn == u) = true
          · rw [if_pos hu]
            exact ⟨c, hc, by dsimp only; omega⟩
          · rw [if_neg hu] at hnot ⊢
            exact absurd hsl0 hnot

/-- C2 counterexample: a renewal to instant 1000 authorized by
credentials expiring at 10 and 2000000 commits expiration 1000, which
exceeds the minimum credential expiry 10 supplied in that call. -/
theorem renew_exceeds_min_cred_expiry :
    (ReferenceAggregateManager.RenewSliver renewState "S"
        (Except.ok [⟨10⟩, ⟨2000000⟩]) 1000).1.slices
      = [{ urn := "S", expiration := 1000, resourceIds := [] }] ∧
    ((⟨10⟩ : Cred) ∈ [(⟨10⟩ : Cred), ⟨2000000⟩]) ∧
    (10 : Int) < 1000 := by decide

theorem expiration_bounds_amended_witness :
    ((⟨"s", 5, [0]⟩ : Slice).expiration ≤ 0 + max_lease ∧
     ∀ c ∈ [(⟨5⟩ : Cred)], (⟨"s", 5, [0]⟩ : Slice).expiration ≤ c.expiration) ∧
    (∃ c ∈ [(⟨2000⟩ : Cred)], (⟨"S", 1000, []⟩ : Slice).expiration ≤ c.expiration) :=
  ⟨expiration_bounds_amended.1 initState 0 "s" [⟨5⟩] ["a"] ⟨"s", 5, [0]⟩
     (by decide) (by decide),
   expiration_bounds_amended.2 renewState "S" [⟨2000⟩] 1000 ⟨"S", 1000, []⟩
     (by decide) (by decide)⟩

/-- C5 (amended): when the slice URN is unregistered and the parsed
request names more node entries than there are available resources after
the initial expiration sweep, Allocate returns the InsufficientResources
error (geni_code 6) and the final state is exactly the post-sweep state:
the call itself binds no resource and registers no slice, though the
sweep that every Allocate runs first may already have reclaimed expired
slices. -/
theorem allocate_insufficiency_post_sweep (st : AMState) (now : Int) (u : String)
    (creds : List Cred) (nodes : List String)
    (hunreg : ∀ sl ∈ st.slices, sl.urn ≠ u)
    (hlen : (availList (expire_slices now st)).length < nodes.length) :
    ReferenceAggregateManager.Allocate st now u (Except.ok creds) (Except.ok nodes)
      = (expire_slices now st,
         Except.ok (errorResult 6 "Too Big: insufficient resources to fulfill request")) := by
  have hany : (expire_slices now st).slices.any (fun sl => sl.urn == u) = false := by
    rw [List.any_eq_false]
    intro sl hsl
    rw [expire_slices_slices] at hsl
    have hmem : sl ∈ st.slices := List.mem_of_mem_filter hsl
    simpa using hunreg sl hmem
  unfold ReferenceAggregateManager.Allocate
  dsimp only
  rw [hany]
  simp only [Bool.false_eq_true, if_false]
  rw [if_pos hlen]

/-- A state whose three resources are all bound into one already-expired
slice: before the call no resource is available. -/
def c5State : AMState :=
  { resources := [
      { id := 0, rtype := "fakevm", external_id := "x", available := false,
        status := RStatus.unconfigured, state := AllocState.allocated },
      { id := 1, rtype := "fakevm", external_id := "y", available := false,
        status := RStatus.unconfigured, state := AllocState.allocated },
      { id := 2, rtype := "fakevm", external_id := "z", available := false,
        status := RStatus.unconfigured, state := AllocState.allocated }],
    slices := [{ urn := "old", expiration := 5, resourceIds := [0, 1, 2] }] }

/-- C5 counterexample: at call time no resource is available and the
request names 3 > 0 nodes for the unregistered URN "new", yet the call
does not fail with InsufficientResources and does not leave the state as
it was: the sweep Allocate runs first reclaims the expired slice, the
request is then satisfiable, and the call succeeds (geni_code 0) and
registers "new". -/
theorem allocate_insufficiency_sweep_cex :
    (availList c5State).length = 0 ∧
    (∀ sl ∈ c5State.slices, sl.urn ≠ "new") ∧
    0 < 3 ∧
    ((ReferenceAggregateManager.Allocate c5State 10 "new" (Except.ok [])
        (Except.ok ["a", "b", "c"])).2.toOption.map
       (fun env => env.code.geni_code)) = some 0 ∧
    (ReferenceAggregateManager.Allocate c5State 10 "new" (Except.ok [])
        (Except.ok ["a", "b", "c"])).1.slices.map Slice.urn = ["new"] ∧
    (0 : Int) ≠ 6 := by decide

theorem allocate_insufficiency_post_sweep_witness :
    ReferenceAggregateManager.Allocate initState 0 "s" (Except.ok [])
        (Except.ok ["a", "b", "c", "d"])
      = (expire_slices 0 initState,
         Except.ok (errorResult 6 "Too Big: insufficient resources to fulfill request")) :=
  allocate_insufficiency_post_sweep initState 0 "s" [] ["a", "b", "c", "d"]
    (by decide) (by decide)

/-- C8: a Delete call targeting (by its head URN) a registered slice
whose aggregated status is shutdown returns the Unavailable error
(geni_code 11) and leaves the state completely unchanged: the slice
stays registered and every member resource keeps its binding. -/
theorem delete_shutdown_unavailable (st : AMState) (urns : List String)
    (types : List String) (creds : List Cred) (u : String) (sl : Slice)
    (hmix : ¬ 1 < types.dedup.length)
    (hhead : types.head? = some "slice")
    (huhead : urns.head? = some u)
    (hfind : st.slices.find? (fun s => s.urn == u) = some sl)
    (hshut : sliceAggStatus st sl = RStatus.shutdown) :
    ReferenceAggregateManager.Delete st urns (Except.ok types) (Except.ok creds)
      = (st, Except.ok (errorResult 11
          ("Unavailable: Slice " ++ u ++ " is unavailable."))) := by
  unfold ReferenceAggregateManager.Delete
  dsimp only
  rw [if_neg hmix, hhead]
  dsimp only
  rw [huhead]
  dsimp only
  rw [hfind]
  dsimp only
  rw [if_pos hshut]
  rw [if_neg (by decide : ¬ (("slice" == "sliver") = true))]

/-- A state with one shutdown member resource bound into slice "S". -/
def shutdownState : AMState :=
  { resources := [
      { id := 0, rtype := "fakevm", external_id := "a", available := false,
        status := RStatus.shutdown, state := AllocState.allocated },
      initResource 1, initResource 2],
    slices := [{ urn := "S", expiration := 1000, resourceIds := [0] }] }

theorem delete_shutdown_unavailable_witness :
    ReferenceAggregateManager.Delete shutdownState ["S"] (Except.ok ["slice"])
        (Except.ok [])
      = (shutdownState, Except.ok (errorResult 11
          "Unavailable: Slice S is unavailable.")) :=
  delete_shutdown_unavailable shutdownState ["S"] ["slice"] [] "S" ⟨"S", 1000, [0]⟩
    (by decide) (by decide) (by decide) (by decide) (by decide)

/-! ### Envelope shape at the public boundary -/

/-- The amended envelope contract: the code member always carries
geni_code and one of the three am_type strings; a successful envelope
(geni_code 0) has empty output and am_code 0; an envelope without an
am_code entry is always a failure. -/
def EnvShape (env : Envelope) : Prop :=
  (env.code.geni_code = 0 → env.output = "" ∧ env.code.am_code = some 0) ∧
  (env.code.am_code = none → env.code.geni_code ≠ 0) ∧
  (env.code.am_type = "gcf" ∨ env.code.am_type = "gcf2" ∨ env.code.am_type = "gcf3")

theorem envShape_successResult (v : Value) : EnvShape (successResult v) :=
  ⟨fun _ => ⟨rfl, rfl⟩, by simp [successResult], Or.inr (Or.inl rfl)⟩

theorem envShape_errorResult (c : Int) (out : String) (h : c ≠ 0) :
    EnvShape (errorResult c out) :=
  ⟨fun h0 => absurd h0 h, fun _ => h, Or.inr (Or.inl rfl)⟩

theorem envShape_noSuchSlice (u : String) : EnvShape (noSuchSlice u) :=
  envShape_errorResult 12 _ (by norm_num)

theorem envShape_exception_result (e : String) : EnvShape (exception_result e) :=
  ⟨fun h0 => absurd h0 (by simp [exception_result]), by simp [exception_result],
   Or.inr (Or.inr rfl)⟩

theorem envShape_gcfSuccess (v : Value) :
    EnvShape { code := { geni_code := 0, am_type := "gcf", am_code := some 0 },
               value := v, output := "" } :=
  ⟨fun _ => ⟨rfl, rfl⟩, by simp, Or.inl rfl⟩

/-- Shape of a delegate result: every normally returned envelope
satisfies the contract; a raised exception is converted by the outer
adapter. -/
def ExceptShape : Except String Envelope → Prop
  | Except.ok env => EnvShape env
  | Except.error _ => True

theorem wrap_shape (x : AMState × Except String Envelope) (h : ExceptShape x.2) :
    EnvShape (wrap x).2 := by
  rcases x with ⟨st, r⟩
  cases r with
  | ok env => exact h
  | error e => exact envShape_exception_result e

theorem shape_GetVersion (st : AMState) (now : Int) :
    ExceptShape (ReferenceAggregateManager.GetVersion st now).2 :=
  envShape_gcfSuccess Value.versionInfo

theorem shape_ListResources (st : AMState) (now : Int)
    (v : Except String Unit) (o : ReferenceAggregateManager.LROptions) :
    ExceptShape (ReferenceAggregateManager.ListResources st now v o).2 := by
  unfold ReferenceAggregateManager.ListResources
  rcases v with e | u
  · trivial
  · dsimp only
    rcases o.rspec_version with _ | ⟨rt, rv⟩
    · exact envShape_errorResult 1 _ (by norm_num)
    · dsimp only
      rcases rt with _ | rspec_type
      · exact envShape_errorResult 1 _ (by norm_num)
      · dsimp only
        rcases rv with _ | rspec_version
        · exact envShape_errorResult 1 _ (by norm_num)
        · dsimp only
          by_cases ht : rspec_type ≠ "geni"
          · rw [if_pos ht]
            exact envShape_errorResult 4 _ (by norm_num)
          · rw [if_neg ht]
            by_cases hv : rspec_version ≠ "3"
            · rw [if_pos hv]
              exact envShape_errorResult 4 _ (by norm_num)
            · rw [if_neg hv]
              by_cases hs : o.slice_urn_present = true
              · rw [if_pos hs]
                exact envShape_errorResult 1 _ (by norm_num)
              · rw [if_neg hs]
                by_cases hc : o.geni_compressed = true
                · rw [if_pos hc]
                  by_cases hk : o.compress_ok = true
                  · rw [if_pos hk]
                    exact envShape_gcfSuccess _
                  · rw [if_neg hk]
                    trivial
                · rw [if_neg hc]
                  exact envShape_gcfSuccess _

theorem shape_Allocate (st : AMState) (now : Int) (u : String)
    (v : Except String (List Cred)) (r : Except String (List String)) :
    ExceptShape (ReferenceAggregateManager.Allocate st now u v r).2 := by
  unfold ReferenceAggregateManager.Allocate
  rcases v with e | creds
  · trivial
  · dsimp only
    by_cases hdup : (expire_slices now st).slices.any (fun sl => sl.urn == u) = true
    · simp only [hdup, if_true]
      exact envShape_errorResult 17 _ (by norm_num)
    · simp only [hdup, if_false]
      rcases r with e | nodes
      · exact envShape_errorResult 1 _ (by norm_num)
      · dsimp only
        by_cases hlen : (availList (expire_slices now st)).length < nodes.length
        · simp only [hlen, if_true]
          exact envShape_errorResult 6 _ (by norm_num)
        · simp only [hlen, if_false]
          exact envShape_gcfSuccess _

theorem shape_Delete (st : AMState) (urns : List String)
    (t : Except String (List String)) (v : Except String (List Cred)) :
    ExceptShape (ReferenceAggregateManager.Delete st urns t v).2 := by
  unfold ReferenceAggregateManager.Delete
  rcases t with e | types
  · trivial
  · dsimp only
    by_cases hmix : 1 < types.dedup.length
    · simp only [hmix, if_true]
      exact envShape_errorResult 1 _ (by norm_num)
    · simp only [hmix, if_false]
      cases htypes : types.head? with
      | none => trivial
      | some urn_type =>
        dsimp only
        by_cases hsliver : (urn_type == "sliver") = true
        · simp only [hsliver, if_true]
          exact envShape_errorResult 5 _ (by norm_num)
        · simp only [hsliver, if_false]
          cases hurns : urns.head? with
          | none => trivial
          | some slice_urn =>
            dsimp only
            rcases v with e | creds
            · trivial
            · dsimp only
              cases hfind : st.slices.find? (fun sl => sl.urn == slice_urn) with
              | none => exact envShape_noSuchSlice slice_urn
              | some theslice =>
                dsimp only
                by_cases hshut : sliceAggStatus st theslice = RStatus.shutdown
                · simp only [hshut, if_true]
                  exact envShape_errorResult 11 _ (by norm_num)
                · simp only [hshut, if_false]
                  exact envShape_successResult _

/-- C9 (amended): every call at the public boundary returns an envelope
(never an unhandled exception): its code member carries geni_code and
one of the am_type strings, value and output are always present by
construction; geni_code = 0 envelopes have empty output and am_code 0;
but the am_code entry is absent from delegate-level error envelopes (it
is present only on success and on the outer adapter's exception
envelope), so an envelope without am_code is always a failure. -/
theorem boundary_envelope_shape_amended (st : AMState) (c : PublicCall) :
    EnvShape (AggregateManager.handle st c).2 := by
  cases c with
  | getVersion now =>
    exact wrap_shape _ (shape_GetVersion st now)
  | listResources now v o =>
    exact wrap_shape _ (shape_ListResources st now v o)
  | allocate now u v r =>
    exact wrap_shape _ (shape_Allocate st now u v r)
  | deleteSliver u t v =>
    exact wrap_shape _ (shape_Delete st [u] (t.map (fun ty => [ty])) v)

theorem boundary_envelope_shape_amended_witness :
    (AggregateManager.handle initState (PublicCall.getVersion 0)).2.output = "" ∧
    (AggregateManager.handle initState (PublicCall.getVersion 0)).2.code.am_code
      = some 0 :=
  (boundary_envelope_shape_amended initState (PublicCall.getVersion 0)).1 (by decide)
